import Mathlib

/-!
Shallow embedding of the feature-selection pipeline of
src/mlmachine/features/selection.py (class FeatureSelector), together with
theorems settling the specification claims about it.

Modelling conventions:
* A pandas DataFrame of ranking results is an ordered association list from
  feature name to the list of its numeric column values.
* Scores and averages are rationals (the source works with Python floats;
  the claims are about ordering and arithmetic-mean structure, not rounding).
* An estimator is represented by its display name, matching the source which
  stores model.estimator.__name__ in the result rows.
* The sklearn cross_validate primitive is an external collaborator and is
  passed in as an oracle; a Python exception raised by it is modelled by the
  Except monad (the source has no try/except around the call, so an error
  aborts the sweep exactly as an uncaught exception does).
* The source calls pandas sort_values without a kind argument, so the
  default quicksort is used, which pandas documents as not stable: the
  contract the source can rely on is only that the output is a permutation
  of the rows ordered by the key, with the relative order of tied keys
  unspecified.  That contract is captured by the predicates IsAvgSort and
  IsDescValidationSort, and every property that turns on tie order is
  stated against the contract (quantified over, or exhibiting, admissible
  outputs).  The executable functions sortByAverage and sortByValidationDesc
  use a stable insertion sort as one admissible implementation; they are
  relied on as the code's behavior only where the keys involved are
  distinct, so that every admissible implementation agrees.
-/

namespace MLMachine

/-- Result of one call to the cross-validation primitive
(model_selection.cross_validate with return_train_score=True):
the per-fold training scores and per-fold held-out scores. -/
structure CVScores where
  trainScores : List ℚ
  testScores : List ℚ
deriving DecidableEq, Repr

/-- One row of the consensus summary table produced by featureSelectorSummary
(the resultsSummary DataFrame).  values holds the per-method columns of the
row; average, low and high are the inserted summary statistics.  The stdev
column of the source (a sample standard deviation, hence an irrational square
root) is not modelled: no downstream computation or claim reads it, and it
does not participate in the join, the average or the sort. -/
structure SummaryRow where
  feature : String
  values : List ℚ
  average : ℚ
  low : ℚ
  high : ℚ
deriving DecidableEq, Repr

/-- One row of the cvSummary DataFrame built by featureSelectorCrossVal:
columns Estimator, Training score, Validation score, Scoring. -/
structure CVRow where
  estimator : String
  training : ℚ
  validation : ℚ
  scoring : String
deriving DecidableEq, Repr

/-- Arithmetic mean of a list of rationals, as numpy .mean() computes it
(sum divided by length; the source only applies it to the k nonempty
per-fold score arrays). -/
def listMean (l : List ℚ) : ℚ :=
  l.sum / (l.length : ℚ)

/-- Comparison used by sort_values("average"): ascending order on the
average column. -/
def leAvg (a b : SummaryRow) : Prop :=
  a.average ≤ b.average

instance : DecidableRel leAvg :=
  fun a b => inferInstanceAs (Decidable (a.average ≤ b.average))

instance : IsTotal SummaryRow leAvg :=
  ⟨fun a b => le_total a.average b.average⟩

instance : IsTrans SummaryRow leAvg :=
  ⟨fun _ _ _ hab hbc => le_trans hab hbc⟩

/-- Strict version of the average comparison, used to show the sorted order
is unique when the averages are pairwise distinct. -/
def ltAvg (a b : SummaryRow) : Prop :=
  a.average < b.average

instance : IsAntisymm SummaryRow ltAvg :=
  ⟨fun _ _ h1 h2 => absurd h2 (lt_asymm h1)⟩

/-- One admissible implementation of pandas DataFrame.sort_values("average")
(the source passes no kind argument, so the default, unstable quicksort is
used): an insertion sort by the average column.  It agrees with whatever the
source's sort does whenever the averages involved are pairwise distinct; for
tied averages the source guarantees nothing beyond the IsAvgSort contract
below, so no theorem about the code may depend on this function's tie
order. -/
def sortByAverage (l : List SummaryRow) : List SummaryRow :=
  List.insertionSort leAvg l

/-- Everything the source guarantees about sort_values("average") with the
default kind: the output s is a permutation of the input rows, ordered
ascending by the average column.  The relative order of rows with equal
averages is unspecified. -/
def IsAvgSort (l s : List SummaryRow) : Prop :=
  l.Perm s ∧ s.Sorted leAvg

instance (l s : List SummaryRow) : Decidable (IsAvgSort l s) :=
  inferInstanceAs (Decidable (l.Perm s ∧ s.Sorted leAvg))

/-- np.arange(0, stop, step) for natural stop and step: the indices
0, step, 2*step, ... strictly below stop.  For step ≥ 1 it has
ceil(stop / step) = (stop + step - 1) / step elements. -/
def arange (stop step : ℕ) : List ℕ :=
  (List.range ((stop + step - 1) / step)).map (· * step)

/-- Feature subset evaluated at iteration index i of featureSelectorCrossVal:
the source sorts the supplied resultsSummary by "average" and takes the whole
index when i == 0 and index[:-i] (all but the i least-important features,
that is the top length - i) otherwise. -/
def subsetAt (resultsSummary : List SummaryRow) (i : ℕ) : List String :=
  let top := (sortByAverage resultsSummary).map (·.feature)
  if i = 0 then top else top.take (resultsSummary.length - i)

/-- FeatureSelector.featureSelectorCrossVal.  cv is the external
cross-validation primitive (estimator name, feature subset, metric ↦ per-fold
scores, or an uncaught exception).  For each estimator, for each metric, for
each subset index i in np.arange(0, F, step), it runs cv on the subset's
columns and appends one row with the mean training and mean validation
score.  The source has no exception handling, so a cv failure propagates and
aborts the whole sweep; it also performs no validation of empty estimator or
metric lists, which simply make the corresponding loop body run zero times. -/
def featureSelectorCrossVal (cv : String → List String → String → Except String CVScores)
    (metrics : List String) (resultsSummary : List SummaryRow)
    (estimators : List String) (step : ℕ) : Except String (List CVRow) := do
  let blocks ← estimators.mapM (fun est => do
    let perMetric ← metrics.mapM (fun metric =>
      (arange resultsSummary.length step).mapM (fun i => do
        let scores ← cv est (subsetAt resultsSummary i) metric
        pure (⟨est, listMean scores.trainScores, listMean scores.testScores, metric⟩ : CVRow)))
    pure perMetric.flatten)
  pure blocks.flatten

/-- Wraps a total cross-validation oracle (one that never raises) into the
fallible interface consumed by featureSelectorCrossVal. -/
def liftTotal (cv : String → List String → String → CVScores) :
    String → List String → String → Except String CVScores :=
  fun est top metric => Except.ok (cv est top metric)

/-- The row featureSelectorCrossVal appends for a given estimator, metric and
subset index when the cross-validation call succeeds. -/
def recordFor (cv : String → List String → String → CVScores)
    (resultsSummary : List SummaryRow) (est metric : String) (i : ℕ) : CVRow :=
  let scores := cv est (subsetAt resultsSummary i) metric
  ⟨est, listMean scores.trainScores, listMean scores.testScores, metric⟩

/-- The evaluation log featureSelectorCrossVal produces when every
cross-validation call succeeds: estimator-major, then metric, then
increasing subset index. -/
def expectedLog (cv : String → List String → String → CVScores)
    (metrics : List String) (resultsSummary : List SummaryRow)
    (estimators : List String) (step : ℕ) : List CVRow :=
  (estimators.map (fun est =>
    (metrics.map (fun metric =>
      (arange resultsSummary.length step).map
        (recordFor cv resultsSummary est metric))).flatten)).flatten

/-- Comparison used by sort_values(["Validation score"], ascending=False) on
an indexed frame: descending order on the validation score. -/
def geVal (a b : ℕ × CVRow) : Prop :=
  b.2.validation ≤ a.2.validation

instance : DecidableRel geVal :=
  fun a b => inferInstanceAs (Decidable (b.2.validation ≤ a.2.validation))

instance : IsTotal (ℕ × CVRow) geVal :=
  ⟨fun a b => le_total b.2.validation a.2.validation⟩

instance : IsTrans (ℕ × CVRow) geVal :=
  ⟨fun _ _ _ hab hbc => le_trans hbc hab⟩

/-- One admissible implementation of pandas
sort_values(["Validation score"], ascending=False) applied to a frame whose
rows are tagged with their index values (the source passes no kind argument,
so the default, unstable quicksort is used): an insertion sort by descending
validation score.  It agrees with the source's sort whenever the validation
scores involved are pairwise distinct; for ties the source guarantees
nothing beyond the IsDescValidationSort contract below. -/
def sortByValidationDesc (l : List (ℕ × CVRow)) : List (ℕ × CVRow) :=
  List.insertionSort geVal l

/-- Everything the source guarantees about
sort_values(["Validation score"], ascending=False) with the default kind:
the output s is a permutation of the input rows, ordered descending by
validation score.  The relative order of rows with equal validation scores
is unspecified. -/
def IsDescValidationSort (l s : List (ℕ × CVRow)) : Prop :=
  l.Perm s ∧ s.Sorted geVal

instance (l s : List (ℕ × CVRow)) : Decidable (IsDescValidationSort l s) :=
  inferInstanceAs (Decidable (l.Perm s ∧ s.Sorted geVal))

/-- Rows of the cvSummary frame for one scoring metric and one estimator:
cvSummary[(cvSummary[Scoring] == metric) & (cvSummary[Estimator] == estimator)].
Within such a group the rows appear in increasing subset-index order. -/
def cvGroup (log : List CVRow) (metric est : String) : List CVRow :=
  log.filter (fun r => r.scoring == metric && r.estimator == est)

/-- Position (0-based row number) of the winning row of a group: the group is
tagged with positions 0,1,2,..., sorted descending by validation score, and
the first row's tag is taken — this is [:1].index.values[0] of the source
applied after reset_index(drop=True). -/
def bestPosition (group : List CVRow) : Option ℕ :=
  ((sortByValidationDesc group.enum).head?).map Prod.fst

/-- numDropped as computed in featuresUsedSummary: the group is re-indexed by
reset_index(drop=True) (so index values are the row positions 0..K-1) and the
winning row's index value is taken.  Note this is the row position, not the
number of features actually dropped at that row (which is position * step). -/
def numDroppedUsed (log : List CVRow) (metric est : String) : Option ℕ :=
  bestPosition (cvGroup log metric est)

/-- Step size reconstructed in featureSelectorResultsPlot:
np.ceil(totalFeatures / iters) for positive integer arguments. -/
def plotStep (totalFeatures iters : ℕ) : ℕ :=
  (totalFeatures + iters - 1) / iters

/-- numDropped as computed in featureSelectorResultsPlot: the group is
re-indexed by np.arange(0, K * s, s) with s = ceil(totalFeatures / K), and
the winning row's index value p * s is taken. -/
def numDroppedPlot (log : List CVRow) (metric est : String) (totalFeatures : ℕ) : Option ℕ :=
  (bestPosition (cvGroup log metric est)).map
    (· * plotStep totalFeatures (cvGroup log metric est).length)

/-- Feature list recovered from a numDropped value, shared by
featureSelectorResultsPlot and featuresUsedSummary: the resultsSummary is
sorted by "average" and, when numDropped > 0, index[:-numDropped] is taken
(all but the numDropped least-important features), else the full index. -/
def featuresUsedFor (resultsSummary : List SummaryRow) (numDropped : ℕ) : List String :=
  let top := (sortByAverage resultsSummary).map (·.feature)
  if numDropped > 0 then top.take (resultsSummary.length - numDropped) else top

/-- Winning feature-name list recovered by featuresUsedSummary for one
estimator and metric.  On an empty group the source raises an IndexError at
.index.values[0]; the empty list stands in for that unreached case. -/
def winningFeatures (log : List CVRow) (metric est : String)
    (resultsSummary : List SummaryRow) : List String :=
  match numDroppedUsed log metric est with
  | none => []
  | some nd => featuresUsedFor resultsSummary nd

/-- Winning feature-name list recovered by featureSelectorResultsPlot for one
estimator and metric (same recovery, but numDropped is scaled by the
reconstructed plot step). -/
def winningFeaturesPlot (log : List CVRow) (metric est : String)
    (resultsSummary : List SummaryRow) : List String :=
  match numDroppedPlot log metric est resultsSummary.length with
  | none => []
  | some nd => featuresUsedFor resultsSummary nd

/-- pandas Series.unique(): the distinct values in order of first
appearance. -/
def uniqueFirst (l : List String) : List String :=
  l.foldl (fun acc x => if x ∈ acc then acc else acc ++ [x]) []

/-- One row of the table built by featuresUsedSummary: the feature name, one
presence mark per estimator column (True standing for the "X" marker), and
the count column (count of non-null cells in the row, added before fillna). -/
structure UsageRow where
  feature : String
  marks : List Bool
  count : ℕ
deriving DecidableEq, Repr

/-- FeatureSelector.featuresUsedSummary: a frame indexed by the
resultsSummary features (in the stored consensus order); for each estimator
appearing in the log (in order of first appearance) a column marking the
features of that estimator's recovered winning list; and a count column
counting the marks of each row. -/
def featuresUsedSummary (log : List CVRow) (metric : String)
    (resultsSummary : List SummaryRow) : List UsageRow :=
  let ests := uniqueFirst (log.map (·.estimator))
  resultsSummary.map (fun row =>
    let marks := ests.map (fun e =>
      decide (row.feature ∈ winningFeatures log metric e resultsSummary))
    ⟨row.feature, marks, marks.count true⟩)

/-- One ranking-result DataFrame (e.g. the F-score frame with its F-value and
p-value columns): rows in order, each a feature name with that row's column
values. -/
abbrev RankFrame := List (String × List ℚ)

/-- Index (ordered feature names) of a ranking-result frame. -/
def frameFeatures (r : RankFrame) : List String :=
  r.map Prod.fst

/-- Index of pd.concat(results, join="inner", axis=1): the first frame's
features filtered to those present in every other frame (successive index
intersections keep the left operand's order). -/
def joinFeatures : List RankFrame → List String
  | [] => []
  | r :: rest => (frameFeatures r).filter
      (fun f => rest.all (fun s => (frameFeatures s).contains f))

/-- Row of the horizontally concatenated frame for feature f: the column
values contributed by each frame, in frame order. -/
def rowValues (rs : List RankFrame) (f : String) : List ℚ :=
  (rs.map (fun r => (r.lookup f).getD [])).flatten

/-- Summary row built for feature f: the joined per-method values plus the
inserted statistics.  average is the row mean over the method columns,
low/high the row min/max over the method columns, mirroring the insert
order of the source (each statistic is computed before it is inserted, so
none of them feeds into another). -/
def mkSummaryRow (rs : List RankFrame) (f : String) : SummaryRow :=
  let vs := rowValues rs f
  ⟨f, vs, listMean vs, (vs.min?).getD 0, (vs.max?).getD 0⟩

/-- The summary table right after the inner join and column inserts, before
the final sort: one row per joined feature, in join (first-frame) order. -/
def joinedSummary (rs : List RankFrame) : List SummaryRow :=
  (joinFeatures rs).map (mkSummaryRow rs)

/-- FeatureSelector.featureSelectorSummary restricted to its aggregation
core: inner-join the individual ranking results on feature name, insert the
summary statistics, and sort ascending by the average column.  The
individual ranking methods themselves are external collaborators; their
outputs are the rs argument. -/
def featureSelectorSummary (rs : List RankFrame) : List SummaryRow :=
  sortByAverage (joinedSummary rs)

/-- Consensus row fixture with a single method value. -/
def demoRow (f : String) (q : ℚ) : SummaryRow :=
  ⟨f, [q], q, q, q⟩

/-- Two-feature consensus table fixture. -/
def demoSummary2 : List SummaryRow :=
  [demoRow "a" 1, demoRow "b" 2]

/-- Four-feature consensus table fixture. -/
def demoSummary4 : List SummaryRow :=
  [demoRow "a" 1, demoRow "b" 2, demoRow "c" 3, demoRow "d" 4]

/-- Six-feature consensus table fixture. -/
def demoSummary6 : List SummaryRow :=
  [demoRow "a" 1, demoRow "b" 2, demoRow "c" 3, demoRow "d" 4, demoRow "e" 5, demoRow "f" 6]

/-- Ten-feature consensus table fixture. -/
def demoSummary10 : List SummaryRow :=
  [demoRow "f1" 1, demoRow "f2" 2, demoRow "f3" 3, demoRow "f4" 4, demoRow "f5" 5,
   demoRow "f6" 6, demoRow "f7" 7, demoRow "f8" 8, demoRow "f9" 9, demoRow "f10" 10]

/-- Total cross-validation oracle fixture returning constant two-fold
scores. -/
def cvConst : String → List String → String → CVScores :=
  fun _ _ _ => ⟨[1, 2], [3, 4]⟩

/-- Fallible cross-validation oracle fixture that cannot fit a degenerate
subset of at most one feature and raises there. -/
def cvFragile : String → List String → String → Except String CVScores :=
  fun _ top _ => if top.length ≤ 1 then Except.error "fit failed" else Except.ok ⟨[1], [1]⟩

/-- Total cross-validation oracle fixture whose validation score is best
exactly on two-feature subsets. -/
def cvPrefersTwo : String → List String → String → CVScores :=
  fun _ top _ => if top.length = 2 then ⟨[0], [9]⟩ else ⟨[0], [5]⟩

/-- Evaluation-log fixture with a tied maximal validation score for one
estimator and metric (row positions 0 and 1 both score 7). -/
def demoTieLog : List CVRow :=
  [⟨"DT", 1, 7, "acc"⟩, ⟨"DT", 1, 7, "acc"⟩, ⟨"DT", 1, 5, "acc"⟩]

/-- Ranking-result fixture: the second frame omits feature B. -/
def demoFrames : List RankFrame :=
  [[("A", [1]), ("B", [2])], [("A", [3])]]

/-- Row permutation of the two-feature consensus table fixture. -/
def demoSummary2Perm : List SummaryRow :=
  [demoRow "b" 2, demoRow "a" 1]

/-- Ranking-result fixture with a tied average: one frame in which features
A and B carry the same value. -/
def demoTieFrames : List RankFrame :=
  [[("A", [2]), ("B", [2])]]

deriving instance DecidableEq for Except

/-! Helper lemmas shared across the claims. -/

theorem mapM_ok {α β : Type} (f : α → β) :
    ∀ l : List α, (l.mapM (fun a => (Except.ok (f a) : Except String β))) = Except.ok (l.map f)
  | [] => rfl
  | a :: l => by
    rw [List.mapM_cons, mapM_ok f l]
    rfl

theorem length_arange (stop step : ℕ) :
    (arange stop step).length = (stop + step - 1) / step := by
  simp [arange]

theorem ceilDiv_bounds (F step : ℕ) (hstep : 1 ≤ step) (hF : 1 ≤ F) :
    F ≤ ((F + step - 1) / step) * step ∧ (((F + step - 1) / step) - 1) * step < F := by
  have hKpos : 1 ≤ (F + step - 1) / step := (Nat.one_le_div_iff (by omega)).mpr (by omega)
  have h1 : ((F + step - 1) / step) * step ≤ F + step - 1 := Nat.div_mul_le_self _ _
  have h2 : F + step - 1 < ((F + step - 1) / step + 1) * step :=
    (Nat.div_lt_iff_lt_mul (by omega)).mp (Nat.lt_succ_self _)
  generalize hKdef : (F + step - 1) / step = K at hKpos h1 h2 ⊢
  have hK : K = (K - 1) + 1 := by omega
  have e3 : K * step = (K - 1) * step + step := by
    conv_lhs => rw [hK]
    rw [add_mul, one_mul]
  have e2 : (K + 1) * step = K * step + step := by rw [add_mul, one_mul]
  rw [e3] at h1
  rw [e2, e3] at h2
  rw [e3]
  generalize hb : (K - 1) * step = b at h1 h2 ⊢
  omega

theorem mem_arange {stop step i : ℕ} (h : i ∈ arange stop step) :
    ∃ j, j < (stop + step - 1) / step ∧ i = j * step := by
  simp only [arange, List.mem_map, List.mem_range] at h
  obtain ⟨j, hj, rfl⟩ := h
  exact ⟨j, hj, rfl⟩

theorem mem_arange_lt {stop step i : ℕ} (hstep : 1 ≤ step) (hstop : 1 ≤ stop)
    (h : i ∈ arange stop step) : i < stop := by
  obtain ⟨j, hj, rfl⟩ := mem_arange h
  have hle : j ≤ (stop + step - 1) / step - 1 := by omega
  calc j * step ≤ ((stop + step - 1) / step - 1) * step := Nat.mul_le_mul_right step hle
    _ < stop := (ceilDiv_bounds stop step hstep hstop).2

theorem length_sortByAverage (l : List SummaryRow) :
    (sortByAverage l).length = l.length :=
  (List.perm_insertionSort leAvg l).length_eq

theorem length_subsetAt {summary : List SummaryRow} {i : ℕ} (hi : i < summary.length) :
    (subsetAt summary i).length = summary.length - i := by
  by_cases h0 : i = 0
  · subst h0
    simp [subsetAt, length_sortByAverage]
  · simp only [subsetAt, if_neg h0]
    rw [List.length_take, List.length_map, length_sortByAverage]
    omega

/-! Claim theorems. -/

/-- C2: the subset sequence of featureSelectorCrossVal is indexed by
i = 0, step, 2*step, ... while i < F; the subset at 0 is all F features in
consensus order and the subset at i > 0 is the top F - i features; subset
sizes are strictly decreasing and never zero; the number of subsets is
ceil(F / step) = (F + step - 1) / step (characterised below by
(K - 1) * step < F ≤ K * step); and for a ten-feature table with step 3 the
sizes are exactly [10, 7, 4, 1]. -/
theorem subsetSequencer_spec (summary : List SummaryRow) (step : ℕ)
    (hstep : 1 ≤ step) (hF : 1 ≤ summary.length) :
    ((arange summary.length step).length = (summary.length + step - 1) / step)
    ∧ (∀ (j : ℕ) (hj : j < (arange summary.length step).length),
        (arange summary.length step)[j] = j * step)
    ∧ (∀ i ∈ arange summary.length step, i < summary.length)
    ∧ subsetAt summary 0 = (sortByAverage summary).map (·.feature)
    ∧ (∀ i ∈ arange summary.length step, 0 < i →
        subsetAt summary i
          = ((sortByAverage summary).map (·.feature)).take (summary.length - i))
    ∧ (∀ i ∈ arange summary.length step,
        (subsetAt summary i).length = summary.length - i)
    ∧ (∀ i ∈ arange summary.length step, subsetAt summary i ≠ [])
    ∧ List.Chain' (fun a b => b < a)
        ((arange summary.length step).map (fun i => (subsetAt summary i).length))
    ∧ summary.length ≤ (arange summary.length step).length * step
    ∧ ((arange summary.length step).length - 1) * step < summary.length
    ∧ ((arange demoSummary10.length 3).map (fun i => (subsetAt demoSummary10 i).length))
        = [10, 7, 4, 1] := by
  have hbounds := ceilDiv_bounds summary.length step hstep hF
  refine ⟨length_arange _ _, ?_, ?_, ?_, ?_, ?_, ?_, ?_, ?_, ?_, ?_⟩
  · intro j hj
    simp [arange]
  · intro i hi
    exact mem_arange_lt hstep hF hi
  · simp [subsetAt]
  · intro i _ hipos
    simp [subsetAt, Nat.pos_iff_ne_zero.mp hipos]
  · intro i hi
    exact length_subsetAt (mem_arange_lt hstep hF hi)
  · intro i hi
    have := length_subsetAt (mem_arange_lt hstep hF hi)
    have hlt := mem_arange_lt hstep hF hi
    intro hnil
    rw [hnil] at this
    simp at this
    omega
  · have hmap : (arange summary.length step).map (fun i => (subsetAt summary i).length)
        = (arange summary.length step).map (fun i => summary.length - i) :=
      List.map_congr_left (fun i hi => length_subsetAt (mem_arange_lt hstep hF hi))
    rw [hmap]
    rw [arange, List.map_map]
    rw [List.chain'_map]
    set K := (summary.length + step - 1) / step with hKdef
    have hK1 : 1 ≤ K := by
      rw [hKdef]
      exact (Nat.one_le_div_iff (by omega)).mpr (by omega)
    have hKs : K = (K - 1) + 1 := by omega
    rw [hKs, List.chain'_range_succ]
    intro m hm
    simp only [Function.comp]
    have hsucc : (m + 1) * step = m * step + step := by rw [add_mul, one_mul]
    have hlt : (m + 1) * step ≤ (K - 1) * step := Nat.mul_le_mul_right step (by omega)
    have hup : (K - 1) * step < summary.length := hbounds.2
    rw [hsucc] at hlt ⊢
    have hms : m * step + step < summary.length := lt_of_le_of_lt hlt hup
    omega
  · rw [length_arange]
    exact hbounds.1
  · rw [length_arange]
    exact hbounds.2
  · decide

/-- C2 witness at the ten-feature fixture with step 3. -/
theorem subsetSequencer_spec_witness :
    (1 ≤ 3 ∧ 1 ≤ demoSummary10.length)
    ∧ (((arange demoSummary10.length 3).length = (demoSummary10.length + 3 - 1) / 3)
      ∧ (∀ (j : ℕ) (hj : j < (arange demoSummary10.length 3).length),
          (arange demoSummary10.length 3)[j] = j * 3)
      ∧ (∀ i ∈ arange demoSummary10.length 3, i < demoSummary10.length)
      ∧ subsetAt demoSummary10 0 = (sortByAverage demoSummary10).map (·.feature)
      ∧ (∀ i ∈ arange demoSummary10.length 3, 0 < i →
          subsetAt demoSummary10 i
            = ((sortByAverage demoSummary10).map (·.feature)).take (demoSummary10.length - i))
      ∧ (∀ i ∈ arange demoSummary10.length 3,
          (subsetAt demoSummary10 i).length = demoSummary10.length - i)
      ∧ (∀ i ∈ arange demoSummary10.length 3, subsetAt demoSummary10 i ≠ [])
      ∧ List.Chain' (fun a b => b < a)
          ((arange demoSummary10.length 3).map (fun i => (subsetAt demoSummary10 i).length))
      ∧ demoSummary10.length ≤ (arange demoSummary10.length 3).length * 3
      ∧ ((arange demoSummary10.length 3).length - 1) * 3 < demoSummary10.length
      ∧ ((arange demoSummary10.length 3).map (fun i => (subsetAt demoSummary10 i).length))
          = [10, 7, 4, 1]) :=
  ⟨⟨by decide, by decide⟩, subsetSequencer_spec demoSummary10 3 (by decide) (by decide)⟩

/-- C7: contrary to the claim, a failing cross-validation fit is not recovered:
the source has no exception handling, so the first failing (estimator, metric,
subset) combination aborts the whole sweep and no partial, annotated
evaluation log is produced — even though the same oracle succeeds on the
full-feature subset evaluated first. -/
theorem crossVal_aborts_on_fit_failure :
    featureSelectorCrossVal cvFragile ["acc"] demoSummary2 ["DT"] 1
      = Except.error "fit failed"
    ∧ cvFragile "DT" (subsetAt demoSummary2 0) "acc" = Except.ok ⟨[1], [1]⟩ := by
  constructor
  · decide
  · decide

/-- C8: contrary to the claim, an empty estimator list or an empty metric
list is not rejected: featureSelectorCrossVal returns normally with an empty
evaluation log (the loops simply run zero times). -/
theorem crossVal_returns_normally_on_empty_inputs
    (cv : String → List String → String → Except String CVScores)
    (summary : List SummaryRow) (metrics estimators : List String) (step : ℕ) :
    featureSelectorCrossVal cv metrics summary [] step = Except.ok []
    ∧ featureSelectorCrossVal cv [] summary estimators step = Except.ok [] := by
  constructor
  · rfl
  · have hfun : (fun est : String => do
          let perMetric ← ([] : List String).mapM (fun metric =>
            (arange summary.length step).mapM (fun i => do
              let scores ← cv est (subsetAt summary i) metric
              pure (⟨est, listMean scores.trainScores, listMean scores.testScores,
                metric⟩ : CVRow)))
          pure perMetric.flatten)
        = (fun _ : String => (Except.ok ([] : List CVRow) : Except String (List CVRow))) := by
      funext est
      rfl
    simp only [featureSelectorCrossVal]
    rw [hfun, mapM_ok (fun _ : String => ([] : List CVRow)) estimators]
    have hflat : (estimators.map (fun _ : String => ([] : List CVRow))).flatten = [] := by
      induction estimators with
      | nil => rfl
      | cons e es ih => simp [ih]
    show Except.ok ((estimators.map (fun _ : String => ([] : List CVRow))).flatten) = Except.ok []
    rw [hflat]

theorem sum_map_const {α : Type} (c : ℕ) (l : List α) :
    (l.map (fun _ => c)).sum = l.length * c := by
  induction l with
  | nil => simp
  | cons a l ih =>
    simp [ih]
    ring

theorem crossVal_inner_mapM (cv : String → List String → String → CVScores)
    (summary : List SummaryRow) (step : ℕ) (est metric : String) :
    ((arange summary.length step).mapM (fun i => do
        let scores ← liftTotal cv est (subsetAt summary i) metric
        pure (⟨est, listMean scores.trainScores, listMean scores.testScores,
          metric⟩ : CVRow)))
      = Except.ok ((arange summary.length step).map (recordFor cv summary est metric)) := by
  have h : (fun i => do
        let scores ← liftTotal cv est (subsetAt summary i) metric
        pure (⟨est, listMean scores.trainScores, listMean scores.testScores,
          metric⟩ : CVRow))
      = (fun i => (Except.ok (recordFor cv summary est metric i) : Except String CVRow)) := by
    funext i
    rfl
  rw [h, mapM_ok]

theorem crossVal_total_eq_expectedLog (cv : String → List String → String → CVScores)
    (metrics : List String) (summary : List SummaryRow)
    (estimators : List String) (step : ℕ) :
    featureSelectorCrossVal (liftTotal cv) metrics summary estimators step
      = Except.ok (expectedLog cv metrics summary estimators step) := by
  have hmetric : ∀ est : String, (metrics.mapM (fun metric =>
        (arange summary.length step).mapM (fun i => do
          let scores ← liftTotal cv est (subsetAt summary i) metric
          pure (⟨est, listMean scores.trainScores, listMean scores.testScores,
            metric⟩ : CVRow))))
      = Except.ok (metrics.map (fun metric =>
          (arange summary.length step).map (recordFor cv summary est metric))) := by
    intro est
    have h : (fun metric => (arange summary.length step).mapM (fun i => do
          let scores ← liftTotal cv est (subsetAt summary i) metric
          pure (⟨est, listMean scores.trainScores, listMean scores.testScores,
            metric⟩ : CVRow)))
        = (fun metric => (Except.ok ((arange summary.length step).map
            (recordFor cv summary est metric)) : Except String (List CVRow))) := by
      funext metric
      exact crossVal_inner_mapM cv summary step est metric
    rw [h, mapM_ok]
  have hest : (fun est : String => do
        let perMetric ← metrics.mapM (fun metric =>
          (arange summary.length step).mapM (fun i => do
            let scores ← liftTotal cv est (subsetAt summary i) metric
            pure (⟨est, listMean scores.trainScores, listMean scores.testScores,
              metric⟩ : CVRow)))
        pure perMetric.flatten)
      = (fun est : String => (Except.ok ((metrics.map (fun metric =>
          (arange summary.length step).map (recordFor cv summary est metric))).flatten)
            : Except String (List CVRow))) := by
    funext est
    rw [show (do
        let perMetric ← metrics.mapM (fun metric =>
          (arange summary.length step).mapM (fun i => do
            let scores ← liftTotal cv est (subsetAt summary i) metric
            pure (⟨est, listMean scores.trainScores, listMean scores.testScores,
              metric⟩ : CVRow)))
        pure perMetric.flatten : Except String (List CVRow))
      = (do
        let perMetric ← Except.ok (metrics.map (fun metric =>
          (arange summary.length step).map (recordFor cv summary est metric)))
        pure perMetric.flatten : Except String (List CVRow)) from by rw [hmetric est]]
    rfl
  simp only [featureSelectorCrossVal]
  rw [hest, mapM_ok]
  rfl

/-- C1: with a total cross-validation oracle, featureSelectorCrossVal
succeeds and its evaluation log is exactly one record per
(estimator, metric, subset) triple, laid out estimator-major, then metric,
then increasing subset index; the log has
|estimators| * |metrics| * ceil(F / step) records; and each record carries
the arithmetic means (sum over the per-fold score list divided by its
length) of the oracle's training and held-out fold scores. -/
theorem crossVal_log_shape (cv : String → List String → String → CVScores)
    (metrics : List String) (summary : List SummaryRow) (estimators : List String)
    (step : ℕ) (e m : String) (i : ℕ)
    (_hstep : 1 ≤ step) (_hm : metrics ≠ []) (_he : estimators ≠ []) :
    featureSelectorCrossVal (liftTotal cv) metrics summary estimators step
      = Except.ok (expectedLog cv metrics summary estimators step)
    ∧ (expectedLog cv metrics summary estimators step).length
      = estimators.length * (metrics.length * ((summary.length + step - 1) / step))
    ∧ (recordFor cv summary e m i).training
      = (cv e (subsetAt summary i) m).trainScores.sum
        / ((cv e (subsetAt summary i) m).trainScores.length : ℚ)
    ∧ (recordFor cv summary e m i).validation
      = (cv e (subsetAt summary i) m).testScores.sum
        / ((cv e (subsetAt summary i) m).testScores.length : ℚ) := by
  refine ⟨crossVal_total_eq_expectedLog cv metrics summary estimators step, ?_, rfl, rfl⟩
  rw [expectedLog, List.length_flatten, List.map_map]
  have hinner : ∀ est : String,
      (((metrics.map (fun metric =>
        (arange summary.length step).map (recordFor cv summary est metric))).flatten).length)
      = metrics.length * ((summary.length + step - 1) / step) := by
    intro est
    rw [List.length_flatten, List.map_map]
    have h : (metrics.map (List.length ∘ fun metric =>
          (arange summary.length step).map (recordFor cv summary est metric)))
        = metrics.map (fun _ => (summary.length + step - 1) / step) := by
      refine List.map_congr_left (fun metric _ => ?_)
      simp [length_arange]
    rw [h, sum_map_const]
  have h2 : (estimators.map (List.length ∘ fun est =>
        (metrics.map (fun metric =>
          (arange summary.length step).map (recordFor cv summary est metric))).flatten))
      = estimators.map (fun _ =>
          metrics.length * ((summary.length + step - 1) / step)) := by
    refine List.map_congr_left (fun est _ => ?_)
    simp only [Function.comp]
    exact hinner est
  rw [h2, sum_map_const]

/-- C1 witness at a concrete instance: one estimator, one metric, the
two-feature table, step 1, on the constant two-fold oracle. -/
theorem crossVal_log_shape_witness :
    ((1 : ℕ) ≤ 1 ∧ (["acc"] : List String) ≠ [] ∧ (["DT"] : List String) ≠ [])
    ∧ (featureSelectorCrossVal (liftTotal cvConst) ["acc"] demoSummary2 ["DT"] 1
        = Except.ok (expectedLog cvConst ["acc"] demoSummary2 ["DT"] 1)
      ∧ (expectedLog cvConst ["acc"] demoSummary2 ["DT"] 1).length
        = (["DT"] : List String).length * ((["acc"] : List String).length
            * ((demoSummary2.length + 1 - 1) / 1))
      ∧ (recordFor cvConst demoSummary2 "DT" "acc" 0).training
        = (cvConst "DT" (subsetAt demoSummary2 0) "acc").trainScores.sum
          / ((cvConst "DT" (subsetAt demoSummary2 0) "acc").trainScores.length : ℚ)
      ∧ (recordFor cvConst demoSummary2 "DT" "acc" 0).validation
        = (cvConst "DT" (subsetAt demoSummary2 0) "acc").testScores.sum
          / ((cvConst "DT" (subsetAt demoSummary2 0) "acc").testScores.length : ℚ)) :=
  ⟨⟨by decide, by decide, by decide⟩,
    crossVal_log_shape cvConst ["acc"] demoSummary2 ["DT"] 1 "DT" "acc" 0
      (by decide) (by decide) (by decide)⟩

theorem sortByAverage_perm_eq {l1 l2 : List SummaryRow} (hperm : l1.Perm l2)
    (hnd : (l1.map (·.average)).Nodup) : sortByAverage l1 = sortByAverage l2 := by
  have hp : (sortByAverage l1).Perm (sortByAverage l2) :=
    (List.perm_insertionSort leAvg l1).trans
      (hperm.trans (List.perm_insertionSort leAvg l2).symm)
  have hstrict : ∀ l : List SummaryRow, (l.map (·.average)).Nodup →
      (sortByAverage l).Sorted ltAvg := by
    intro l hl
    have hs : (sortByAverage l).Sorted leAvg := List.sorted_insertionSort leAvg l
    have hndl : ((sortByAverage l).map (·.average)).Nodup :=
      (((List.perm_insertionSort leAvg l).map (·.average)).nodup_iff).mpr hl
    have hne : (sortByAverage l).Pairwise (fun a b => a.average ≠ b.average) :=
      (List.pairwise_map).mp hndl
    exact (hs.and hne).imp (fun h => lt_of_le_of_ne h.1 h.2)
  have hnd2 : (l2.map (·.average)).Nodup := ((hperm.map (·.average)).nodup_iff).mp hnd
  exact List.eq_of_perm_of_sorted hp (hstrict l1 hnd) (hstrict l2 hnd2)

/-- C10: featureSelectorCrossVal re-sorts the supplied consensus table by
its average column inside the subset computation, so when the averages are
pairwise distinct, permuting the rows of the supplied table does not change
the result. -/
theorem crossVal_resultsSummary_order_irrelevant
    (cv : String → List String → String → Except String CVScores)
    (metrics estimators : List String) (step : ℕ) (l1 l2 : List SummaryRow)
    (hperm : l1.Perm l2) (hnd : (l1.map (·.average)).Nodup) :
    featureSelectorCrossVal cv metrics l1 estimators step
      = featureSelectorCrossVal cv metrics l2 estimators step := by
  have hsort := sortByAverage_perm_eq hperm hnd
  have hlen : l1.length = l2.length := hperm.length_eq
  have hsub : ∀ i, subsetAt l1 i = subsetAt l2 i := by
    intro i
    simp only [subsetAt, hsort, hlen]
  simp only [featureSelectorCrossVal, hlen, hsub]

/-- C10 witness: swapping the two rows of the two-feature table leaves the
sweep unchanged. -/
theorem crossVal_resultsSummary_order_irrelevant_witness :
    (demoSummary2.Perm demoSummary2Perm
      ∧ (demoSummary2.map (·.average)).Nodup)
    ∧ featureSelectorCrossVal (liftTotal cvConst) ["acc"] demoSummary2 ["DT"] 1
      = featureSelectorCrossVal (liftTotal cvConst) ["acc"] demoSummary2Perm ["DT"] 1 :=
  ⟨⟨List.Perm.swap _ _ _, by decide⟩,
    crossVal_resultsSummary_order_irrelevant (liftTotal cvConst) ["acc"] ["DT"] 1
      demoSummary2 demoSummary2Perm (List.Perm.swap _ _ _) (by decide)⟩

theorem sortByValidationDesc_admissible (l : List (ℕ × CVRow)) :
    IsDescValidationSort l (sortByValidationDesc l) :=
  ⟨(List.perm_insertionSort geVal l).symm, List.sorted_insertionSort geVal l⟩

/-- C3, corrected: for every admissible outcome of the unspecified
descending sort (pandas' default kind is documented unstable), the
winning-record selection shared by featuresUsedSummary and
featureSelectorResultsPlot picks a record attaining the maximum validation
score of its (estimator, metric) group, at its true row position; and the
executable embedding's sort is one such admissible outcome.  Which record
is picked among several tied at the maximum is not determined by the code
(see the accompanying counterexample), so the claimed
smaller-numberOfFeaturesDropped tie-break is not guaranteed. -/
theorem bestSubset_max_spec (log : List CVRow) (metric est : String)
    (s : List (ℕ × CVRow))
    (hs : IsDescValidationSort ((cvGroup log metric est).enum) s)
    (hne : cvGroup log metric est ≠ []) :
    (∃ p r, s.head? = some (p, r)
      ∧ (cvGroup log metric est)[p]? = some r
      ∧ ∀ y ∈ cvGroup log metric est, y.validation ≤ r.validation)
    ∧ IsDescValidationSort ((cvGroup log metric est).enum)
        (sortByValidationDesc ((cvGroup log metric est).enum)) := by
  obtain ⟨hperm, hsorted⟩ := hs
  have henne : (cvGroup log metric est).enum ≠ [] := by
    intro h
    apply hne
    have hlen := congrArg List.length h
    simp only [List.enum_length, List.length_nil] at hlen
    exact List.length_eq_zero.mp hlen
  have hsne : s ≠ [] := by
    intro h
    apply henne
    have hlen := hperm.length_eq
    rw [h] at hlen
    simp only [List.length_nil] at hlen
    exact List.length_eq_zero.mp hlen
  cases s with
  | nil => exact absurd rfl hsne
  | cons hd tl =>
    obtain ⟨p, r⟩ := hd
    refine ⟨⟨p, r, rfl, ?_, ?_⟩, sortByValidationDesc_admissible _⟩
    · have hmem : (p, r) ∈ (cvGroup log metric est).enum :=
        hperm.mem_iff.mpr (List.mem_cons_self _ _)
      exact List.mk_mem_enum_iff_getElem?.mp hmem
    · intro y hy
      obtain ⟨q, hq⟩ := List.mem_iff_getElem?.mp hy
      have hqmem : (q, y) ∈ (cvGroup log metric est).enum :=
        List.mk_mem_enum_iff_getElem?.mpr hq
      have hqs : (q, y) ∈ (p, r) :: tl := hperm.mem_iff.mp hqmem
      rcases List.mem_cons.mp hqs with heq | htl
      · have hyr : y = r := congrArg Prod.snd heq
        exact hyr ▸ le_refl _
      · exact (List.sorted_cons.mp hsorted).1 (q, y) htl

/-- C3 witness: on the tied log, the explicit descending ordering
[(0, 7), (1, 7), (2, 5)] is admissible, and the theorem yields a maximal
winner at its true position. -/
theorem bestSubset_max_spec_witness :
    (IsDescValidationSort ((cvGroup demoTieLog "acc" "DT").enum)
        [(0, ⟨"DT", 1, 7, "acc"⟩), (1, ⟨"DT", 1, 7, "acc"⟩), (2, ⟨"DT", 1, 5, "acc"⟩)]
      ∧ cvGroup demoTieLog "acc" "DT" ≠ [])
    ∧ ((∃ p r, (([(0, (⟨"DT", 1, 7, "acc"⟩ : CVRow)), (1, ⟨"DT", 1, 7, "acc"⟩),
            (2, ⟨"DT", 1, 5, "acc"⟩)] : List (ℕ × CVRow)).head?) = some (p, r)
        ∧ (cvGroup demoTieLog "acc" "DT")[p]? = some r
        ∧ ∀ y ∈ cvGroup demoTieLog "acc" "DT", y.validation ≤ r.validation)
      ∧ IsDescValidationSort ((cvGroup demoTieLog "acc" "DT").enum)
          (sortByValidationDesc ((cvGroup demoTieLog "acc" "DT").enum))) :=
  ⟨⟨by decide, by decide⟩,
    bestSubset_max_spec demoTieLog "acc" "DT"
      [(0, ⟨"DT", 1, 7, "acc"⟩), (1, ⟨"DT", 1, 7, "acc"⟩), (2, ⟨"DT", 1, 5, "acc"⟩)]
      (by decide) (by decide)⟩

/-- C3 counterexample: the claim's tie-break is not entailed by the code.
On the tied log (row positions 0 and 1 both score 7, position 2 scores 5),
the ordering that lists position 1 first is also a permutation of the group
sorted descending by validation score — everything the unspecified default
sort kind guarantees — and the selection then reports numDropped 1 even
though position 0 (the smaller numberOfFeaturesDropped) attains the same
maximal score. -/
theorem bestSubset_tiebreak_not_guaranteed :
    (cvGroup demoTieLog "acc" "DT").enum
      = [(0, ⟨"DT", 1, 7, "acc"⟩), (1, ⟨"DT", 1, 7, "acc"⟩), (2, ⟨"DT", 1, 5, "acc"⟩)]
    ∧ IsDescValidationSort ((cvGroup demoTieLog "acc" "DT").enum)
        [(1, ⟨"DT", 1, 7, "acc"⟩), (0, ⟨"DT", 1, 7, "acc"⟩), (2, ⟨"DT", 1, 5, "acc"⟩)]
    ∧ (([(1, (⟨"DT", 1, 7, "acc"⟩ : CVRow)), (0, ⟨"DT", 1, 7, "acc"⟩),
          (2, ⟨"DT", 1, 5, "acc"⟩)] : List (ℕ × CVRow)).head?).map Prod.fst = some 1
    ∧ (cvGroup demoTieLog "acc" "DT")[0]? = some ⟨"DT", 1, 7, "acc"⟩
    ∧ (cvGroup demoTieLog "acc" "DT")[1]? = some ⟨"DT", 1, 7, "acc"⟩ := by
  refine ⟨by decide, by decide, by decide, by decide, by decide⟩

/-- C4: the feature-name recovery is inconsistent with the evaluated
subsets when step > 1.  With four features and step 2 the sweep evaluates
the full set and then the top two features, and the winning record is the
two-feature one (numberOfFeaturesDropped = 2); yet featuresUsedSummary
recovers the top three features, because it uses the winning row position
(1, after reset_index) in place of the number of features dropped.
featureSelectorResultsPlot rescales the position by ceil(F / K), which also
disagrees with the true step when step does not divide into F that way: with
six features and step 4 the winner again used the top two features, but the
plot recovery yields the top three. -/
theorem featuresUsed_recovery_mismatch :
    featureSelectorCrossVal (liftTotal cvPrefersTwo) ["acc"] demoSummary4 ["DT"] 2
      = Except.ok [⟨"DT", 0, 5, "acc"⟩, ⟨"DT", 0, 9, "acc"⟩]
    ∧ subsetAt demoSummary4 2 = ["a", "b"]
    ∧ winningFeatures [⟨"DT", 0, 5, "acc"⟩, ⟨"DT", 0, 9, "acc"⟩] "acc" "DT" demoSummary4
      = ["a", "b", "c"]
    ∧ featureSelectorCrossVal (liftTotal cvPrefersTwo) ["acc"] demoSummary6 ["DT"] 4
      = Except.ok [⟨"DT", 0, 5, "acc"⟩, ⟨"DT", 0, 9, "acc"⟩]
    ∧ subsetAt demoSummary6 4 = ["a", "b"]
    ∧ winningFeaturesPlot [⟨"DT", 0, 5, "acc"⟩, ⟨"DT", 0, 9, "acc"⟩] "acc" "DT" demoSummary6
      = ["a", "b", "c"] := by
  refine ⟨?_, ?_, ?_, ?_, ?_, ?_⟩
  · norm_num [featureSelectorCrossVal, liftTotal, cvPrefersTwo, arange, subsetAt, sortByAverage,
      demoSummary4, demoRow, leAvg, List.insertionSort, List.orderedInsert, listMean,
      List.mapM, List.mapM.loop, List.range_succ, Bind.bind, Except.bind, Pure.pure, Except.pure]
  · decide
  · norm_num [winningFeatures, numDroppedUsed, bestPosition, cvGroup, sortByValidationDesc,
      geVal, List.insertionSort, List.orderedInsert, featuresUsedFor, sortByAverage, leAvg,
      demoSummary4, demoRow, List.enum, List.enumFrom]
  · norm_num [featureSelectorCrossVal, liftTotal, cvPrefersTwo, arange, subsetAt, sortByAverage,
      demoSummary6, demoRow, leAvg, List.insertionSort, List.orderedInsert, listMean,
      List.mapM, List.mapM.loop, List.range_succ, Bind.bind, Except.bind, Pure.pure, Except.pure]
  · decide
  · norm_num [winningFeaturesPlot, numDroppedPlot, plotStep, bestPosition, cvGroup,
      sortByValidationDesc, geVal, List.insertionSort, List.orderedInsert, featuresUsedFor,
      sortByAverage, leAvg, demoSummary6, demoRow, List.enum, List.enumFrom]

theorem count_true_map_decide {α : Type} (p : α → Prop) [DecidablePred p] (l : List α) :
    ((l.map (fun a => decide (p a))).count true) = (l.filter (fun a => decide (p a))).length := by
  induction l with
  | nil => rfl
  | cons a l ih =>
    by_cases h : p a
    · simp [List.count_cons, List.filter_cons, h, ih]
    · simp [List.count_cons, List.filter_cons, h, ih]

/-- C9: the usage table of featuresUsedSummary has one row per consensus
feature, in the consensus table's order; each estimator column of a row is
marked exactly when the feature belongs to that estimator's recovered
winning feature list; and the count column of a row equals the number of
estimators whose winning list contains the feature. -/
theorem featuresUsedSummary_spec (log : List CVRow) (metric : String)
    (summary : List SummaryRow) :
    ((featuresUsedSummary log metric summary).map (·.feature) = summary.map (·.feature))
    ∧ (∀ (k : ℕ) (row : SummaryRow), summary[k]? = some row →
        (featuresUsedSummary log metric summary)[k]? = some
          ⟨row.feature,
           (uniqueFirst (log.map (·.estimator))).map (fun e =>
             decide (row.feature ∈ winningFeatures log metric e summary)),
           ((uniqueFirst (log.map (·.estimator))).filter (fun e =>
             decide (row.feature ∈ winningFeatures log metric e summary))).length⟩) := by
  constructor
  · rw [featuresUsedSummary, List.map_map]
    rfl
  · intro k row hk
    rw [featuresUsedSummary, List.getElem?_map, hk]
    have hcount := count_true_map_decide
      (fun e => row.feature ∈ winningFeatures log metric e summary)
      (uniqueFirst (log.map (·.estimator)))
    simp [hcount]

theorem featureSelectorSummary_admissible (rs : List RankFrame) :
    IsAvgSort (joinedSummary rs) (featureSelectorSummary rs) :=
  ⟨(List.perm_insertionSort leAvg (joinedSummary rs)).symm,
    List.sorted_insertionSort leAvg (joinedSummary rs)⟩

/-- C5, corrected: for every admissible outcome of the unspecified
ascending sort (pandas' default kind is documented unstable), every row of
the consensus table carries as its average the arithmetic mean of that row's
per-method values, and the table is a permutation of the joined rows sorted
ascending by average; the executable embedding's sort is one such admissible
outcome.  The relative order of rows with tied averages is not determined by
the code (see the accompanying counterexample), so the claimed
insertion-order stability is not guaranteed. -/
theorem consensusTable_spec_amended (rs : List RankFrame) (s : List SummaryRow)
    (hs : IsAvgSort (joinedSummary rs) s) :
    (∀ row ∈ s, row.average = row.values.sum / (row.values.length : ℚ))
    ∧ IsAvgSort (joinedSummary rs) (featureSelectorSummary rs) := by
  refine ⟨?_, featureSelectorSummary_admissible rs⟩
  intro row hrow
  have hmem : row ∈ joinedSummary rs := hs.1.mem_iff.mpr hrow
  rw [joinedSummary] at hmem
  obtain ⟨f, _, rfl⟩ := List.mem_map.mp hmem
  rfl

/-- C5 counterexample: the claim's stability clause is not entailed by the
code.  On a ranking result in which features A and B tie at average 2, the
table listing B before A is also a permutation of the joined rows sorted
ascending by average — everything the unspecified default sort kind
guarantees — yet it reverses the original insertion order of the tied
features. -/
theorem consensusTable_stability_not_guaranteed :
    joinedSummary demoTieFrames
      = [⟨"A", [2], 2, 2, 2⟩, ⟨"B", [2], 2, 2, 2⟩]
    ∧ IsAvgSort (joinedSummary demoTieFrames)
        ([⟨"B", [2], 2, 2, 2⟩, ⟨"A", [2], 2, 2, 2⟩] : List SummaryRow)
    ∧ ([⟨"B", [2], 2, 2, 2⟩, ⟨"A", [2], 2, 2, 2⟩] : List SummaryRow)
        ≠ joinedSummary demoTieFrames := by
  have h1 : joinedSummary demoTieFrames
      = [⟨"A", [2], 2, 2, 2⟩, ⟨"B", [2], 2, 2, 2⟩] := by
    norm_num [joinedSummary, joinFeatures, frameFeatures, mkSummaryRow, rowValues,
      listMean, demoTieFrames, List.lookup, List.filter, List.min?, List.max?,
      show ("B" == "A") = false from rfl, show ("A" == "A") = true from rfl,
      show ("B" == "B") = true from rfl]
  refine ⟨h1, ?_, ?_⟩
  · rw [h1]
    exact ⟨List.Perm.swap _ _ _, by decide⟩
  · rw [h1]
    decide

/-- C6: the feature set of the consensus table is the intersection of the
feature domains of the individual ranking results: a feature appears in
featureSelectorSummary's output exactly when every ranking-result frame
contains it. -/
theorem consensus_features_intersection (rs : List RankFrame) (hne : rs ≠ [])
    (f : String) :
    f ∈ (featureSelectorSummary rs).map (·.feature)
      ↔ ∀ r ∈ rs, f ∈ frameFeatures r := by
  have hmem : f ∈ (featureSelectorSummary rs).map (·.feature) ↔ f ∈ joinFeatures rs := by
    rw [List.mem_map]
    constructor
    · rintro ⟨row, hrow, rfl⟩
      have hrow2 : row ∈ joinedSummary rs :=
        (List.perm_insertionSort leAvg (joinedSummary rs)).mem_iff.mp hrow
      rw [joinedSummary] at hrow2
      obtain ⟨g, hg, rfl⟩ := List.mem_map.mp hrow2
      exact hg
    · intro hf
      refine ⟨mkSummaryRow rs f, ?_, rfl⟩
      refine (List.perm_insertionSort leAvg (joinedSummary rs)).mem_iff.mpr ?_
      rw [joinedSummary]
      exact List.mem_map.mpr ⟨f, hf, rfl⟩
  rw [hmem]
  cases rs with
  | nil => exact absurd rfl hne
  | cons r rest =>
    rw [joinFeatures, List.mem_filter]
    constructor
    · rintro ⟨hr, hall⟩ s hs
      rcases List.mem_cons.mp hs with rfl | hs
      · exact hr
      · have := (List.all_eq_true.mp hall) s hs
        simpa using this
    · intro h
      refine ⟨h r (List.mem_cons_self r rest), List.all_eq_true.mpr ?_⟩
      intro s hs
      simpa using h s (List.mem_cons_of_mem r hs)

/-- C6 witness: the fixture in which the second ranking result omits feature
B, so the consensus table must not contain B. -/
theorem consensus_features_intersection_witness :
    demoFrames ≠ []
    ∧ ("B" ∈ (featureSelectorSummary demoFrames).map (·.feature)
        ↔ ∀ r ∈ demoFrames, "B" ∈ frameFeatures r) :=
  ⟨by decide, consensus_features_intersection demoFrames (by decide) "B"⟩

/-- C5 witness: the executable consensus table itself is an admissible sort
outcome, instantiating the amended theorem. -/
theorem consensusTable_spec_amended_witness :
    IsAvgSort (joinedSummary demoFrames) (featureSelectorSummary demoFrames)
    ∧ ((∀ row ∈ featureSelectorSummary demoFrames,
          row.average = row.values.sum / (row.values.length : ℚ))
      ∧ IsAvgSort (joinedSummary demoFrames) (featureSelectorSummary demoFrames)) :=
  ⟨featureSelectorSummary_admissible demoFrames,
    consensusTable_spec_amended demoFrames (featureSelectorSummary demoFrames)
      (featureSelectorSummary_admissible demoFrames)⟩

/-- C8 witness at concrete inputs. -/
theorem crossVal_returns_normally_on_empty_inputs_witness :
    featureSelectorCrossVal cvFragile ["acc"] demoSummary2 [] 1 = Except.ok []
    ∧ featureSelectorCrossVal cvFragile [] demoSummary2 ["DT"] 1 = Except.ok [] :=
  crossVal_returns_normally_on_empty_inputs cvFragile demoSummary2 ["acc"] ["DT"] 1

/-- C9 witness at the tie-log fixture over the two-feature consensus table. -/
theorem featuresUsedSummary_spec_witness :
    ((featuresUsedSummary demoTieLog "acc" demoSummary2).map (·.feature)
        = demoSummary2.map (·.feature))
    ∧ (∀ (k : ℕ) (row : SummaryRow), demoSummary2[k]? = some row →
        (featuresUsedSummary demoTieLog "acc" demoSummary2)[k]? = some
          ⟨row.feature,
           (uniqueFirst (demoTieLog.map (·.estimator))).map (fun e =>
             decide (row.feature ∈ winningFeatures demoTieLog "acc" e demoSummary2)),
           ((uniqueFirst (demoTieLog.map (·.estimator))).filter (fun e =>
             decide (row.feature ∈ winningFeatures demoTieLog "acc" e demoSummary2))).length⟩) :=
  featuresUsedSummary_spec demoTieLog "acc" demoSummary2

end MLMachine
